import Mathlib

/-!
Verification of the zillowsaves incremental-sync pipeline (`main.go`).

The Go source is shallowly embedded below:
* strings are Lean `String`s / `List Char` (the source data is ASCII),
* `time.Time` values are modelled as a calendar date plus seconds-of-day in a
  single fixed location (`Time`), which is how the program uses them
  (comparison via `Before`, rendering via `Format("2006-01-02")`),
* Go machine integers appear only through `strconv.Atoi`, modelled with the
  explicit 64-bit bound `2 ^ 63 - 1`,
* sheet cells (`interface{}` values) are modelled by `Cell`, and the two
  sheet-service effects (read rows / append rows) by explicit state passing,
  counting the number of `Values.Append` calls made.
-/

namespace Zillow

/-! ## Characters and decimal digits -/

/-- ASCII lowercasing, modelling `strings.ToLower` on the ASCII range
(the only range exercised by the program's patterns and data). -/
def lowerChar (c : Char) : Char :=
  if 'A' ≤ c ∧ c ≤ 'Z' then Char.ofNat (c.toNat + 32) else c

/-- Whitespace class `\s` of Go's regexp (RE2): `[\t\n\f\r ]`. -/
def isSpaceRE (c : Char) : Bool :=
  c == '\t' || c == '\n' || c == '\x0c' || c == '\r' || c == ' '

/-- The ASCII whitespace set trimmed by `strings.TrimSpace`:
space, `\t`, `\n`, `\v`, `\f`, `\r`. -/
def isSpaceGo (c : Char) : Bool :=
  c == ' ' || c == '\t' || c == '\n' || c == '\x0b' || c == '\x0c' || c == '\r'

/-- The decimal digit character for `n ≤ 9` (`'0' + n`, as Go prints digits). -/
def digitChar (n : Nat) : Char := Char.ofNat (48 + n)

/-- Decimal digits of `n`, most significant first, with explicit fuel
(the fuel `n + 1` always suffices).  Models Go's decimal integer printing. -/
def natReprAux : Nat → Nat → List Char
  | 0, _ => []
  | f + 1, n =>
    if n < 10 then [digitChar n] else natReprAux f (n / 10) ++ [digitChar (n % 10)]

/-- Decimal representation of a natural number, e.g. `natRepr 2025 = ['2','0','2','5']`. -/
def natRepr (n : Nat) : List Char := natReprAux (n + 1) n

/-- Value of a list of decimal digit characters, most significant first
(the digit-string case of `strconv.Atoi`). -/
def digitsToNat (l : List Char) : Nat :=
  l.foldl (fun a c => a * 10 + (c.toNat - 48)) 0

/-- Left-pad with `'0'` to width `w` (Go's `appendInt` padding: the full
representation is kept when it is already wider than `w`). -/
def padLeft (w : Nat) (l : List Char) : List Char :=
  List.replicate (w - l.length) '0' ++ l

/-- Zero-padded decimal of width `w`, as produced by `Format` verbs `2006`, `01`, `02`. -/
def padNum (w n : Nat) : List Char := padLeft w (natRepr n)

/-! ## Calendar dates and times -/

/-- A calendar date as carried by the program (`year`, `month`, `day`). -/
structure Date where
  year : Nat
  month : Nat
  day : Nat
  deriving DecidableEq

/-- Gregorian leap-year rule, as in Go's `time.isLeap`. -/
def isLeap (y : Nat) : Bool := y % 4 == 0 && (y % 100 != 0 || y % 400 == 0)

/-- Days in month `m` of year `y` (Go's `time.daysIn`); only consulted for
`1 ≤ m ≤ 12`. -/
def daysIn (m y : Nat) : Nat :=
  if m = 2 then (if isLeap y then 29 else 28)
  else if m = 4 ∨ m = 6 ∨ m = 9 ∨ m = 11 then 30
  else 31

/-- The calendar-validity check `time.Parse` applies to parsed components
("month out of range" / "day out of range"). -/
def validDate (d : Date) : Prop :=
  1 ≤ d.month ∧ d.month ≤ 12 ∧ 1 ≤ d.day ∧ d.day ≤ daysIn d.month d.year

instance (d : Date) : Decidable (validDate d) := by
  unfold validDate; infer_instance

/-- Next calendar day: the effect of Go's `AddDate(0, 0, 1)` on a valid date. -/
def nextDay (d : Date) : Date :=
  if d.day < daysIn d.month d.year then ⟨d.year, d.month, d.day + 1⟩
  else if d.month < 12 then ⟨d.year, d.month + 1, 1⟩
  else ⟨d.year + 1, 1, 1⟩

/-- Rendering of a date by `Format("2006-01-02")`: zero-padded
`YYYY-MM-DD`. -/
def formatDate (d : Date) : String :=
  ⟨padNum 4 d.year ++ '-' :: (padNum 2 d.month ++ '-' :: padNum 2 d.day)⟩

/-- Model of `time.Time` as carried by `EmailMessage.Date`: the envelope
parser produces a wall-clock time in the sender's fixed zone, so the value
is the local calendar date (what `Format("2006-01-02")` renders), the local
seconds within that day (`< 86400` for every real time), and the zone
offset east of UTC in minutes.  `Before` compares absolute instants, i.e.
local wall time minus the offset. -/
structure Time where
  date : Date
  secOfDay : Nat
  offsetMin : Int
  deriving DecidableEq

/-- Days in year `y` of the proleptic Gregorian calendar. -/
def daysInYear (y : Nat) : Nat := if isLeap y then 366 else 365

/-- Days in all years `0, …, y - 1` of the proleptic Gregorian calendar
(closed form: `365` per year plus one per leap year, counted through the
`4 / 100 / 400` rule Go's absolute-time arithmetic uses). -/
def daysInYearsBefore (y : Nat) : Nat :=
  365 * y + ((y + 3) / 4 - (y + 99) / 100 + (y + 399) / 400)

/-- Days in the months `1, …, m - 1` of year `y`. -/
def monthsBefore : Nat → Nat → Nat
  | 0, _ => 0
  | 1, _ => 0
  | m + 2, y => monthsBefore (m + 1) y + daysIn (m + 1) y

/-- Days from 0000-01-01 to the given date (Go's internal absolute-day
count, up to a constant origin shift that cancels in comparisons). -/
def dayNumber (d : Date) : Nat :=
  daysInYearsBefore d.year + monthsBefore d.month d.year + (d.day - 1)

/-- The absolute instant of a `Time`, in seconds: local wall-clock seconds
minus the zone offset.  This is what Go's `Time.Before` compares. -/
def instantSec (t : Time) : Int :=
  (dayNumber t.date : Int) * 86400 + (t.secOfDay : Int) - t.offsetMin * 60

/-- Go's `Time.Before`: comparison of absolute instants (which can disagree
with the order of the local calendar dates when zone offsets differ). -/
def timeBefore (a b : Time) : Bool := decide (instantSec a < instantSec b)

/-- Date order used to state monotonicity of the appended date cells. -/
def dateLE (a b : Date) : Prop :=
  a.year < b.year ∨ (a.year = b.year ∧
    (a.month < b.month ∨ (a.month = b.month ∧ a.day ≤ b.day)))

/-- Strict version of `dateLE`. -/
def dateLT (a b : Date) : Prop :=
  a.year < b.year ∨ (a.year = b.year ∧
    (a.month < b.month ∨ (a.month = b.month ∧ a.day < b.day)))

/-! ## Metric extractor (`extractZillowSavesCount`)

The single active pattern is `(\d+)\s+saves?`, applied to the lowercased
body with `FindStringSubmatch` (leftmost match).  Because the digit class,
the whitespace class and the literal `save` are pairwise disjoint, the
regex's greedy semantics coincide with maximal-run scanning: a match starts
at position `i` iff a nonempty digit run is followed there by a nonempty
`\s` run and then the literal `save` (the trailing `s?` never affects
match existence or the capture). -/

/-- Attempt of the pattern `(\d+)\s+saves?` anchored at the head of `cs`;
returns the capture group (the digit run) on success. -/
def matchHere (cs : List Char) : Option (List Char) :=
  let ds := cs.takeWhile Char.isDigit
  let r1 := cs.dropWhile Char.isDigit
  if ds.isEmpty then none
  else
    let ws := r1.takeWhile isSpaceRE
    let r2 := r1.dropWhile isSpaceRE
    if ws.isEmpty then none
    else if ['s', 'a', 'v', 'e'].isPrefixOf r2 then some ds else none

/-- Leftmost match of the pattern, as found by `FindStringSubmatch`:
the first position (scanning left to right) where `matchHere` succeeds. -/
def findMatchFrom : List Char → Option (List Char)
  | [] => none
  | c :: rest =>
    match matchHere (c :: rest) with
    | some ds => some ds
    | none => findMatchFrom rest

/-- Model of `strconv.Atoi` on the capture group.  The capture of `(\d+)` is
always a nonempty unsigned digit string, so only the digit case matters;
`Atoi` reports an error (`ErrRange`) when the value exceeds the 64-bit
`math.MaxInt64 = 2 ^ 63 - 1`. -/
def goAtoi (l : List Char) : Option Int :=
  if l ≠ [] ∧ l.all Char.isDigit ∧ digitsToNat l ≤ 2 ^ 63 - 1 then
    some (Int.ofNat (digitsToNat l))
  else none

/-- Embedding of `extractZillowSavesCount` (main.go:155-179): lowercase the
content, try the single active pattern, `Atoi` the first match's capture;
on success return `(count, nil)`.  If no pattern matches, or `Atoi` fails,
fall out of the pattern loop and `return 0, nil`. -/
def extractZillowSavesCount (content : String) : Int × Option String :=
  match findMatchFrom (content.data.map lowerChar) with
  | some capture =>
    match goAtoi capture with
    | some n => (n, none)
    | none => (0, none)
  | none => (0, none)

/-! ## Date parsing (`time.Parse` for the five layouts of `doZillow`) -/

/-- Layout verb `2006` (`stdLongYear`): exactly four decimal digits. -/
def takeYear4 (cs : List Char) : Option (Nat × List Char) :=
  if (cs.take 4).length = 4 ∧ (cs.take 4).all Char.isDigit then
    some (digitsToNat (cs.take 4), cs.drop 4)
  else none

/-- Layout verbs `01` / `02` (`stdZeroMonth` / `stdZeroDay`): exactly two
decimal digits (`getnum` with `fixed = true`). -/
def takeNum2 (cs : List Char) : Option (Nat × List Char) :=
  if (cs.take 2).length = 2 ∧ (cs.take 2).all Char.isDigit then
    some (digitsToNat (cs.take 2), cs.drop 2)
  else none

/-- Layout verbs `1` / `2` (`stdNumMonth` / `stdNumDay`): one digit, or two
when the second character is also a digit (`getnum` with `fixed = false`). -/
def takeNumFlex (cs : List Char) : Option (Nat × List Char) :=
  match cs with
  | [] => none
  | a :: rest =>
    if a.isDigit then
      match rest with
      | b :: rest2 =>
        if b.isDigit then some (digitsToNat [a, b], rest2)
        else some (digitsToNat [a], b :: rest2)
      | [] => some (digitsToNat [a], [])
    else none

/-- A literal layout character must match the input exactly. -/
def litChar (c : Char) (cs : List Char) : Option (List Char) :=
  match cs with
  | x :: rest => if x = c then some rest else none
  | [] => none

/-- ASCII lower-or-identity used by `time`'s case-insensitive `match`:
`c | 0x20`. -/
def orCase (c : Char) : Char := Char.ofNat (c.toNat ||| 32)

/-- Character comparison of `time.match`: equal, or equal after `| 0x20`
with the result an ASCII lowercase letter. -/
def ciEq (a b : Char) : Bool :=
  a == b || (orCase a == orCase b && decide (97 ≤ (orCase a).toNat) &&
    decide ((orCase a).toNat ≤ 122))

/-- Case-insensitive prefix match, returning the remaining input. -/
def ciPrefix : List Char → List Char → Option (List Char)
  | [], cs => some cs
  | _ :: _, [] => none
  | n :: ns, c :: cs => if ciEq n c then ciPrefix ns cs else none

/-- The short month names of layout verb `Jan` (`stdMonth`). -/
def monthNames : List String :=
  ["Jan", "Feb", "Mar", "Apr", "May", "Jun", "Jul", "Aug", "Sep", "Oct", "Nov", "Dec"]

/-- The `lookup` of `time.Parse`: try each month name, in order, as a
case-insensitive prefix; the month number is its 1-based index. -/
def lookupMonthFrom : Nat → List String → List Char → Option (Nat × List Char)
  | _, [], _ => none
  | idx, n :: ns, cs =>
    match ciPrefix n.data cs with
    | some rest => some (idx, rest)
    | none => lookupMonthFrom (idx + 1) ns cs

def lookupMonth (cs : List Char) : Option (Nat × List Char) :=
  lookupMonthFrom 1 monthNames cs

/-- The range validation `time.Parse` performs after the layout loop:
month in `1..12`, day in `1..daysIn(month, year)`. -/
def mkDate (y m dd : Nat) : Option Date :=
  if 1 ≤ m ∧ m ≤ 12 then
    if 1 ≤ dd ∧ dd ≤ daysIn m y then some ⟨y, m, dd⟩ else none
  else none

/-- `time.Parse("2006-01-02", s)` (the primary format `dateFormat`). -/
def parseISO (s : String) : Option Date :=
  match takeYear4 s.data with
  | none => none
  | some (y, r1) =>
    match litChar '-' r1 with
    | none => none
    | some r2 =>
      match takeNum2 r2 with
      | none => none
      | some (m, r3) =>
        match litChar '-' r3 with
        | none => none
        | some r4 =>
          match takeNum2 r4 with
          | none => none
          | some (dd, r5) => if r5 = [] then mkDate y m dd else none

/-- `time.Parse("1/2/2006", s)` (first alternative format). -/
def parseMDY1 (s : String) : Option Date :=
  match takeNumFlex s.data with
  | none => none
  | some (m, r1) =>
    match litChar '/' r1 with
    | none => none
    | some r2 =>
      match takeNumFlex r2 with
      | none => none
      | some (dd, r3) =>
        match litChar '/' r3 with
        | none => none
        | some r4 =>
          match takeYear4 r4 with
          | none => none
          | some (y, r5) => if r5 = [] then mkDate y m dd else none

/-- `time.Parse("01/02/2006", s)` (second alternative format). -/
def parseMDY0 (s : String) : Option Date :=
  match takeNum2 s.data with
  | none => none
  | some (m, r1) =>
    match litChar '/' r1 with
    | none => none
    | some r2 =>
      match takeNum2 r2 with
      | none => none
      | some (dd, r3) =>
        match litChar '/' r3 with
        | none => none
        | some r4 =>
          match takeYear4 r4 with
          | none => none
          | some (y, r5) => if r5 = [] then mkDate y m dd else none

/-- `time.Parse("2006/01/02", s)` (third alternative format). -/
def parseYMD (s : String) : Option Date :=
  match takeYear4 s.data with
  | none => none
  | some (y, r1) =>
    match litChar '/' r1 with
    | none => none
    | some r2 =>
      match takeNum2 r2 with
      | none => none
      | some (m, r3) =>
        match litChar '/' r3 with
        | none => none
        | some r4 =>
          match takeNum2 r4 with
          | none => none
          | some (dd, r5) => if r5 = [] then mkDate y m dd else none

/-- `time.Parse("Jan 2, 2006", s)` (fourth alternative format). -/
def parseMonDY (s : String) : Option Date :=
  match lookupMonth s.data with
  | none => none
  | some (m, r1) =>
    match litChar ' ' r1 with
    | none => none
    | some r2 =>
      match takeNumFlex r2 with
      | none => none
      | some (dd, r3) =>
        match litChar ',' r3 with
        | none => none
        | some r4 =>
          match litChar ' ' r4 with
          | none => none
          | some r5 =>
            match takeYear4 r5 with
            | none => none
            | some (y, r6) => if r6 = [] then mkDate y m dd else none

/-- The alternative formats, in the order `doZillow` tries them
(`{"1/2/2006", "01/02/2006", "2006/01/02", "Jan 2, 2006"}`). -/
def altFormats : List (String → Option Date) :=
  [parseMDY1, parseMDY0, parseYMD, parseMonDY]

/-- The `for _, format := range formats` loop: first successful parse wins. -/
def firstParse : List (String → Option Date) → String → Option Date
  | [], _ => none
  | f :: fs, s =>
    match f s with
    | some d => some d
    | none => firstParse fs s

/-- Full parsing cascade of `doZillow`: the primary format, then the
alternative formats in order. -/
def parseAny (s : String) : Option Date :=
  match parseISO s with
  | some d => some d
  | none => firstParse altFormats s

/-- ASCII model of `strings.TrimSpace` on a character list. -/
def goTrimList (l : List Char) : List Char :=
  ((l.dropWhile isSpaceGo).reverse.dropWhile isSpaceGo).reverse

/-- ASCII model of `strings.TrimSpace`. -/
def goTrim (s : String) : String := ⟨goTrimList s.data⟩

/-! ## Sheet data model and the pipeline -/

/-- A sheet cell (`interface{}` value delivered by the Sheets API): a
string, a number, or the Go `nil` the code guards against. -/
inductive Cell where
  | str : String → Cell
  | num : Int → Cell
  | nil : Cell
  deriving DecidableEq

/-- Rendering of a cell by `fmt.Sprintf("%v", ...)` (the `nil` case prints
`<nil>` but is unreachable: the code checks `lastRow[0] != nil` first). -/
def cellString : Cell → String
  | .str s => s
  | .num n => toString n
  | .nil => "<nil>"

/-- The fixed fallback `fallbackFilterDate` (main.go:26). -/
def fallbackFilterDate : String := "2025-05-21"

/-- Watermark resolution of `doZillow` (main.go:241-280): take the last
row's first cell, trim it, try the primary format then the alternative
formats; on success the watermark is the parsed date plus one day,
formatted `YYYY-MM-DD`; otherwise (no rows, empty last row, `nil` cell,
or no format matches) the fixed fallback date. -/
def resolveFilterDate (rows : List (List Cell)) : String :=
  match rows.getLast? with
  | none => fallbackFilterDate
  | some lastRow =>
    match lastRow.head? with
    | none => fallbackFilterDate
    | some cell =>
      match cell with
      | Cell.nil => fallbackFilterDate
      | c =>
        let dateStr := goTrim (cellString c)
        match parseISO dateStr with
        | some d => formatDate (nextDay d)
        | none =>
          match firstParse altFormats dateStr with
          | some d => formatDate (nextDay d)
          | none => fallbackFilterDate

/-- The `EmailMessage` struct (main.go:36-42). -/
structure EmailMessage where
  subject : String
  date : Time
  content : String
  id : String
  zillowSaves : Int
  deriving DecidableEq

/-- The row `appendToSheet` builds for one email:
`[date formatted 2006-01-02, saves count]` (main.go:122-128). -/
def rowOfEmail (e : EmailMessage) : List Cell :=
  [Cell.str (formatDate e.date.date), Cell.num e.zillowSaves]

/-- Result of `appendToSheet`: the sheet contents after the call, the
number of `Values.Append` requests issued, and the returned error. -/
structure AppendResult where
  sheet : List (List Cell)
  calls : Nat
  error : Option String
  deriving DecidableEq

/-- Embedding of `appendToSheet` (main.go:119-153): build one row per
email; if there are no rows, return `nil` without calling the service;
otherwise issue a single batch `Values.Append` (modelled as succeeding). -/
def appendToSheet (sheet : List (List Cell)) (emails : List EmailMessage) :
    AppendResult :=
  let values := emails.map rowOfEmail
  if values.isEmpty then ⟨sheet, 0, none⟩
  else ⟨sheet ++ values, 1, none⟩

/-- The extraction loop of `processData` (main.go:197-214): assign each
email its extracted count; on the first extraction error assign the
sentinel `-1`, flip the gate and `break` (leaving the remaining emails
untouched). Returns the updated emails and the gate `bOK`. -/
def processEmails : List EmailMessage → List EmailMessage × Bool
  | [] => ([], true)
  | e :: rest =>
    match extractZillowSavesCount e.content with
    | (count, none) =>
      let r := processEmails rest
      ({ e with zillowSaves := count } :: r.1, r.2)
    | (_, some _) => ({ e with zillowSaves := -1 } :: rest, false)

/-- Result of `processData`: the (updated) email batch, the sheet
afterwards, the number of append calls, and the gate `bOK`. -/
structure RunResult where
  emails : List EmailMessage
  sheet : List (List Cell)
  calls : Nat
  gate : Bool
  deriving DecidableEq

/-- Embedding of `processData` (main.go:185-219): run the extraction loop,
then append to the sheet only if the gate `bOK` is still true. -/
def processData (sheet : List (List Cell)) (emails : List EmailMessage) :
    RunResult :=
  let p := processEmails emails
  if p.2 then
    let a := appendToSheet sheet p.1
    ⟨p.1, a.sheet, a.calls, true⟩
  else ⟨p.1, sheet, 0, false⟩

/-- Numeric reading of a date cell: fold the decimal digits, skipping
other characters, so `"2025-07-21"` reads as `20250721`.  On the
fixed-width `YYYY-MM-DD` strings the appender produces, comparing these
numbers is the same as comparing the strings lexicographically or the
dates chronologically. -/
def cellNum (s : String) : Nat :=
  s.data.foldl (fun a c => if c.isDigit then a * 10 + (c.toNat - 48) else a) 0

/-! ## Lemmas: decimal representation -/

theorem natReprAux_eq_of_lt : ∀ f g n : Nat, n < f → n < g →
    natReprAux f n = natReprAux g n := by
  intro f
  induction f with
  | zero => intro g n h; omega
  | succ f ih =>
    intro g n hf hg
    cases g with
    | zero => omega
    | succ g =>
      simp only [natReprAux]
      by_cases h10 : n < 10
      · simp [h10]
      · have hlt : n / 10 < n := Nat.div_lt_self (by omega) (by omega)
        simp only [if_neg h10]
        rw [ih g (n / 10) (by omega) (by omega)]

theorem natRepr_of_lt {n : Nat} (h : n < 10) : natRepr n = [digitChar n] := by
  simp [natRepr, natReprAux, h]

theorem natRepr_of_ge {n : Nat} (h : 10 ≤ n) :
    natRepr n = natRepr (n / 10) ++ [digitChar (n % 10)] := by
  have hlt : n / 10 < n := Nat.div_lt_self (by omega) (by omega)
  show natReprAux (n + 1) n = natReprAux (n / 10 + 1) (n / 10) ++ [digitChar (n % 10)]
  rw [show natReprAux (n + 1) n = if n < 10 then [digitChar n]
      else natReprAux n (n / 10) ++ [digitChar (n % 10)] from rfl]
  rw [if_neg (by omega : ¬ n < 10)]
  rw [natReprAux_eq_of_lt n (n / 10 + 1) (n / 10) (by omega) (by omega)]

theorem natRepr_ne_nil (n : Nat) : natRepr n ≠ [] := by
  by_cases h : n < 10
  · simp [natRepr_of_lt h]
  · simp [natRepr_of_ge (by omega : 10 ≤ n)]

/-- Every character of a decimal representation is `digitChar k` for some `k < 10`. -/
theorem natRepr_mem (n : Nat) : ∀ c ∈ natRepr n, ∃ k, k < 10 ∧ c = digitChar k := by
  induction n using Nat.strong_induction_on with
  | _ n ih =>
    by_cases h : n < 10
    · rw [natRepr_of_lt h]
      intro c hc
      simp only [List.mem_singleton] at hc
      exact ⟨n, h, hc⟩
    · rw [natRepr_of_ge (by omega : 10 ≤ n)]
      intro c hc
      rcases List.mem_append.1 hc with h1 | h1
      · exact ih (n / 10) (Nat.div_lt_self (by omega) (by omega)) c h1
      · simp only [List.mem_singleton] at h1
        exact ⟨n % 10, Nat.mod_lt _ (by omega), h1⟩

theorem digitChar_isDigit {k : Nat} (h : k < 10) : (digitChar k).isDigit = true := by
  interval_cases k <;> decide

theorem digitChar_toNat {k : Nat} (h : k < 10) : (digitChar k).toNat = 48 + k := by
  interval_cases k <;> decide

theorem digitChar_lower {k : Nat} (h : k < 10) : lowerChar (digitChar k) = digitChar k := by
  interval_cases k <;> decide

theorem digitChar_not_spaceRE {k : Nat} (h : k < 10) : isSpaceRE (digitChar k) = false := by
  interval_cases k <;> decide

theorem digitChar_not_spaceGo {k : Nat} (h : k < 10) : isSpaceGo (digitChar k) = false := by
  interval_cases k <;> decide

theorem natRepr_all_digit (n : Nat) : ∀ c ∈ natRepr n, c.isDigit = true := by
  intro c hc
  obtain ⟨k, hk, rfl⟩ := natRepr_mem n c hc
  exact digitChar_isDigit hk

theorem natRepr_length_le : ∀ k n : Nat, 1 ≤ k → n < 10 ^ k →
    (natRepr n).length ≤ k := by
  intro k n
  induction n using Nat.strong_induction_on generalizing k with
  | _ n ih =>
    intro hk hn
    by_cases h : n < 10
    · rw [natRepr_of_lt h]; simpa using hk
    · rw [natRepr_of_ge (by omega : 10 ≤ n)]
      have hk2 : 2 ≤ k := by
        by_contra hc
        have : k = 1 := by omega
        subst this; simp at hn; omega
      have hdiv : n / 10 < 10 ^ (k - 1) := by
        have : n < 10 ^ (k - 1) * 10 := by
          have : 10 ^ k = 10 ^ (k - 1) * 10 := by
            conv_lhs => rw [show k = (k - 1) + 1 by omega]
            rw [pow_succ]
          omega
        omega
      have := ih (n / 10) (Nat.div_lt_self (by omega) (by omega)) (k - 1) (by omega) hdiv
      simp only [List.length_append, List.length_singleton]
      omega

/-- Generalized digit fold: starting accumulator scales by `10 ^ length`. -/
theorem digitFold_from (l : List Char) : ∀ a : Nat,
    l.foldl (fun a c => a * 10 + (c.toNat - 48)) a =
      a * 10 ^ l.length + l.foldl (fun a c => a * 10 + (c.toNat - 48)) 0 := by
  induction l with
  | nil => intro a; simp
  | cons c t ih =>
    intro a
    simp only [List.foldl_cons, List.length_cons]
    rw [ih (a * 10 + (c.toNat - 48)), ih (0 * 10 + (c.toNat - 48))]
    ring

theorem digitsToNat_append (l₁ l₂ : List Char) :
    digitsToNat (l₁ ++ l₂) = digitsToNat l₁ * 10 ^ l₂.length + digitsToNat l₂ := by
  simp only [digitsToNat, List.foldl_append]
  rw [digitFold_from l₂]

theorem digitsToNat_natRepr (n : Nat) : digitsToNat (natRepr n) = n := by
  induction n using Nat.strong_induction_on with
  | _ n ih =>
    by_cases h : n < 10
    · rw [natRepr_of_lt h]
      simp only [digitsToNat, List.foldl_cons, List.foldl_nil]
      rw [digitChar_toNat h]; omega
    · rw [natRepr_of_ge (by omega : 10 ≤ n)]
      rw [digitsToNat_append]
      rw [ih (n / 10) (Nat.div_lt_self (by omega) (by omega))]
      simp only [digitsToNat, List.length_singleton, List.foldl_cons, List.foldl_nil]
      rw [digitChar_toNat (Nat.mod_lt _ (by omega))]
      omega

theorem digitsToNat_replicate_zero (k : Nat) (l : List Char) :
    digitsToNat (List.replicate k '0' ++ l) = digitsToNat l := by
  induction k with
  | zero => simp
  | succ k ih =>
    rw [List.replicate_succ]
    simpa [digitsToNat, List.foldl_cons] using ih

/-! ## Lemmas: zero-padded numerals -/

theorem padNum_length {w n : Nat} (h1 : 1 ≤ w) (hn : n < 10 ^ w) :
    (padNum w n).length = w := by
  have := natRepr_length_le w n h1 hn
  simp only [padNum, padLeft, List.length_append, List.length_replicate]
  omega

theorem padNum_mem {w n : Nat} : ∀ c ∈ padNum w n, ∃ k, k < 10 ∧ c = digitChar k := by
  intro c hc
  simp only [padNum, padLeft, List.mem_append] at hc
  rcases hc with hc | hc
  · exact ⟨0, by omega, (List.eq_of_mem_replicate hc)⟩
  · exact natRepr_mem n c hc

theorem padNum_all_digit {w n : Nat} : ∀ c ∈ padNum w n, c.isDigit = true := by
  intro c hc
  obtain ⟨k, hk, rfl⟩ := padNum_mem c hc
  exact digitChar_isDigit hk

theorem digitsToNat_padNum (w n : Nat) : digitsToNat (padNum w n) = n := by
  simp only [padNum, padLeft]
  rw [digitsToNat_replicate_zero, digitsToNat_natRepr]

/-! ## Lemmas: pattern matching of the metric extractor -/

theorem takeWhile_all_append {p : Char → Bool} {xs ys : List Char} {y : Char}
    (hall : ∀ c ∈ xs, p c = true) (hy : p y = false) :
    (xs ++ y :: ys).takeWhile p = xs := by
  induction xs with
  | nil => simp [List.takeWhile_cons, hy]
  | cons x t ih =>
    have hx : p x = true := hall x (by simp)
    simp only [List.cons_append, List.takeWhile_cons, hx, if_true]
    rw [ih (fun c hc => hall c (by simp [hc]))]

theorem dropWhile_all_append {p : Char → Bool} {xs ys : List Char} {y : Char}
    (hall : ∀ c ∈ xs, p c = true) (hy : p y = false) :
    (xs ++ y :: ys).dropWhile p = y :: ys := by
  induction xs with
  | nil => simp [List.dropWhile_cons, hy]
  | cons x t ih =>
    have hx : p x = true := hall x (by simp)
    simp only [List.cons_append, List.dropWhile_cons, hx, if_true]
    exact ih (fun c hc => hall c (by simp [hc]))

/-- The pattern matches at the head of `digits ++ " save..."`, capturing the
digit run. -/
theorem matchHere_digits {ds rest : List Char} (hne : ds ≠ [])
    (hall : ∀ c ∈ ds, c.isDigit = true) :
    matchHere (ds ++ ' ' :: 's' :: 'a' :: 'v' :: 'e' :: rest) = some ds := by
  have hsp : (' ' : Char).isDigit = false := by decide
  have h1 : (ds ++ ' ' :: 's' :: 'a' :: 'v' :: 'e' :: rest).takeWhile Char.isDigit = ds :=
    takeWhile_all_append hall hsp
  have h2 : (ds ++ ' ' :: 's' :: 'a' :: 'v' :: 'e' :: rest).dropWhile Char.isDigit =
      ' ' :: 's' :: 'a' :: 'v' :: 'e' :: rest :=
    dropWhile_all_append hall hsp
  have hemp : ds.isEmpty = false := by
    cases ds with
    | nil => exact absurd rfl hne
    | cons d t => rfl
  have h3 : (' ' :: 's' :: 'a' :: 'v' :: 'e' :: rest).takeWhile isSpaceRE = [' '] := by
    rw [List.takeWhile_cons_of_pos (by decide), List.takeWhile_cons_of_neg (by decide)]
  have h4 : (' ' :: 's' :: 'a' :: 'v' :: 'e' :: rest).dropWhile isSpaceRE =
      's' :: 'a' :: 'v' :: 'e' :: rest := by
    rw [List.dropWhile_cons_of_pos (by decide), List.dropWhile_cons_of_neg (by decide)]
  simp only [matchHere, h1, h2, h3, h4, hemp]
  simp [List.isPrefixOf]

/-- Scanning is leftmost: positions that do not match are skipped. -/
theorem findMatchFrom_append_none : ∀ xs ys : List Char,
    (∀ i < xs.length, matchHere ((xs ++ ys).drop i) = none) →
    findMatchFrom (xs ++ ys) = findMatchFrom ys := by
  intro xs
  induction xs with
  | nil => intro ys _; rfl
  | cons x t ih =>
    intro ys h
    have h0 := h 0 (by simp)
    simp only [List.drop_zero] at h0
    show findMatchFrom (x :: (t ++ ys)) = findMatchFrom ys
    rw [findMatchFrom]
    simp only [List.cons_append] at h0
    rw [h0]
    exact ih ys (fun i hi => by
      have := h (i + 1) (by simpa using Nat.succ_lt_succ hi)
      simpa using this)

/-! ## Lemmas: extractor totality -/

theorem goAtoi_nonneg {l : List Char} {n : Int} (h : goAtoi l = some n) : 0 ≤ n := by
  unfold goAtoi at h
  split at h
  · injection h with h
    subst h
    exact Int.natCast_nonneg _
  · exact absurd h (by simp)

theorem goAtoi_digits {l : List Char} (hne : l ≠ [])
    (hall : ∀ c ∈ l, c.isDigit = true) (hle : digitsToNat l ≤ 2 ^ 63 - 1) :
    goAtoi l = some (Int.ofNat (digitsToNat l)) := by
  unfold goAtoi
  rw [if_pos ⟨hne, List.all_eq_true.2 hall, hle⟩]

/-- The extractor never returns an error: the final statement of
`extractZillowSavesCount` is `return 0, nil`, and every earlier return also
carries a nil error. -/
theorem extract_error_nil (content : String) :
    (extractZillowSavesCount content).2 = none := by
  cases h1 : findMatchFrom (content.data.map lowerChar) with
  | none => simp [extractZillowSavesCount, h1]
  | some cap =>
    cases h2 : goAtoi cap with
    | none => simp [extractZillowSavesCount, h1, h2]
    | some n => simp [extractZillowSavesCount, h1, h2]

/-- The extractor always returns a non-negative count. -/
theorem extract_nonneg (content : String) :
    0 ≤ (extractZillowSavesCount content).1 := by
  cases h1 : findMatchFrom (content.data.map lowerChar) with
  | none => simp [extractZillowSavesCount, h1]
  | some cap =>
    cases h2 : goAtoi cap with
    | none => simp [extractZillowSavesCount, h1, h2]
    | some n =>
      simp only [extractZillowSavesCount, h1, h2]
      exact goAtoi_nonneg h2

/-- When no pattern matches (or the capture overflows `Atoi`), the code
returns the successful pair `(0, nil)`. -/
theorem extract_gap_returns_zero (content : String)
    (h : findMatchFrom (content.data.map lowerChar) = none ∨
      ∃ cap, findMatchFrom (content.data.map lowerChar) = some cap ∧ goAtoi cap = none) :
    extractZillowSavesCount content = (0, none) := by
  rcases h with h | ⟨cap, h1, h2⟩
  · simp [extractZillowSavesCount, h]
  · simp [extractZillowSavesCount, h1, h2]

/-- The pair returned by the extractor is its count paired with `none`. -/
theorem extract_eta (content : String) :
    extractZillowSavesCount content = ((extractZillowSavesCount content).1, none) := by
  have h := extract_error_nil content
  cases he : extractZillowSavesCount content with
  | mk a b => rw [he] at h; simp only at h; subst h; rfl

/-- The extraction loop of `processData` processes every email, assigns each
its extracted count, and leaves the gate `bOK` true. -/
theorem processEmails_eq (emails : List EmailMessage) :
    processEmails emails =
      (emails.map (fun e => { e with zillowSaves := (extractZillowSavesCount e.content).1 }),
        true) := by
  induction emails with
  | nil => rfl
  | cons e rest ih =>
    show processEmails (e :: rest) = _
    rw [processEmails]
    rw [extract_eta e.content]
    simp only [ih, List.map_cons]

/-! ## Lemmas: the append step and the orchestrator -/

theorem appendToSheet_sheet (sheet : List (List Cell)) (emails : List EmailMessage) :
    (appendToSheet sheet emails).sheet = sheet ++ emails.map rowOfEmail := by
  cases emails with
  | nil => simp [appendToSheet]
  | cons e rest => simp [appendToSheet]

theorem appendToSheet_error (sheet : List (List Cell)) (emails : List EmailMessage) :
    (appendToSheet sheet emails).error = none := by
  cases emails with
  | nil => rfl
  | cons e rest => rfl

theorem processData_eq (sheet : List (List Cell)) (emails : List EmailMessage) :
    processData sheet emails =
      ⟨emails.map (fun e => { e with zillowSaves := (extractZillowSavesCount e.content).1 }),
        (appendToSheet sheet
          (emails.map (fun e => { e with zillowSaves := (extractZillowSavesCount e.content).1 }))).sheet,
        (appendToSheet sheet
          (emails.map (fun e => { e with zillowSaves := (extractZillowSavesCount e.content).1 }))).calls,
        true⟩ := by
  unfold processData
  rw [processEmails_eq]
  rfl

/-! ## Lemmas: parsing the formatted date back (round trip) -/

theorem takeYear4_padNum {y : Nat} (hy : y ≤ 9999) (rest : List Char) :
    takeYear4 (padNum 4 y ++ rest) = some (y, rest) := by
  have hlen : (padNum 4 y).length = 4 := padNum_length (by omega) (by omega)
  unfold takeYear4
  rw [List.take_left' hlen, List.drop_left' hlen]
  rw [if_pos ⟨hlen, List.all_eq_true.2 padNum_all_digit⟩, digitsToNat_padNum]

theorem takeNum2_padNum {m : Nat} (hm : m ≤ 99) (rest : List Char) :
    takeNum2 (padNum 2 m ++ rest) = some (m, rest) := by
  have hlen : (padNum 2 m).length = 2 := padNum_length (by omega) (by omega)
  unfold takeNum2
  rw [List.take_left' hlen, List.drop_left' hlen]
  rw [if_pos ⟨hlen, List.all_eq_true.2 padNum_all_digit⟩, digitsToNat_padNum]

theorem litChar_cons (c : Char) (rest : List Char) :
    litChar c (c :: rest) = some rest := by
  simp [litChar]

theorem mkDate_of_valid {d : Date} (h : validDate d) :
    mkDate d.year d.month d.day = some d := by
  obtain ⟨h1, h2, h3, h4⟩ := h
  unfold mkDate
  rw [if_pos ⟨h1, h2⟩, if_pos ⟨h3, h4⟩]

/-- Round trip: a date written by `Format("2006-01-02")` parses back under
the same layout to the same date. -/
theorem parseISO_formatDate {d : Date} (hv : validDate d) (hy : d.year ≤ 9999) :
    parseISO (formatDate d) = some d := by
  obtain ⟨h1, h2, h3, h4⟩ := hv
  have hd31 : d.day ≤ 31 := le_trans h4 (by unfold daysIn; split <;> [split <;> omega; split <;> omega])
  have hdata : (formatDate d).data =
      padNum 4 d.year ++ '-' :: (padNum 2 d.month ++ '-' :: padNum 2 d.day) := rfl
  unfold parseISO
  rw [hdata]
  have e1 := takeYear4_padNum hy ('-' :: (padNum 2 d.month ++ '-' :: padNum 2 d.day))
  have e2 := takeNum2_padNum (show d.month ≤ 99 by omega) ('-' :: padNum 2 d.day)
  have e3 : takeNum2 (padNum 2 d.day) = some (d.day, []) := by
    have := takeNum2_padNum (show d.day ≤ 99 by omega) ([] : List Char)
    rwa [List.append_nil] at this
  simp only [e1, e2, e3, litChar_cons, if_true]
  exact mkDate_of_valid ⟨h1, h2, h3, h4⟩

/-- `TrimSpace` is the identity on strings with no whitespace characters. -/
theorem goTrimList_eq_self {l : List Char} (h : ∀ c ∈ l, isSpaceGo c = false) :
    goTrimList l = l := by
  have h1 : l.dropWhile isSpaceGo = l := by
    cases l with
    | nil => rfl
    | cons c t => exact List.dropWhile_cons_of_neg (by simp [h c (by simp)])
  unfold goTrimList
  rw [h1]
  have h2 : l.reverse.dropWhile isSpaceGo = l.reverse := by
    cases hr : l.reverse with
    | nil => rfl
    | cons c t =>
      refine List.dropWhile_cons_of_neg ?_
      have : c ∈ l := List.mem_reverse.1 (by rw [hr]; simp)
      simp [h c this]
  rw [h2, List.reverse_reverse]

theorem formatDate_no_space (d : Date) : ∀ c ∈ (formatDate d).data, isSpaceGo c = false := by
  intro c hc
  have hdata : (formatDate d).data =
      padNum 4 d.year ++ '-' :: (padNum 2 d.month ++ '-' :: padNum 2 d.day) := rfl
  rw [hdata] at hc
  simp only [List.mem_append, List.mem_cons] at hc
  rcases hc with hc | rfl | hc | rfl | hc
  · obtain ⟨k, hk, rfl⟩ := padNum_mem c hc
    exact digitChar_not_spaceGo hk
  · rfl
  · obtain ⟨k, hk, rfl⟩ := padNum_mem c hc
    exact digitChar_not_spaceGo hk
  · rfl
  · obtain ⟨k, hk, rfl⟩ := padNum_mem c hc
    exact digitChar_not_spaceGo hk

theorem goTrim_formatDate (d : Date) : goTrim (formatDate d) = formatDate d := by
  show String.mk (goTrimList (formatDate d).data) = formatDate d
  rw [goTrimList_eq_self (formatDate_no_space d)]

/-! ## Lemmas: watermark resolution -/

/-- When the last row's first cell parses (trimmed, primary format first,
then the alternatives in the order the code tries them), the watermark is
the parsed date plus one day. -/
theorem resolveFilterDate_parsed {rows : List (List Cell)} {row : List Cell}
    {cell : Cell} {d : Date} (h1 : rows.getLast? = some row)
    (h2 : row.head? = some cell) (h3 : cell ≠ Cell.nil)
    (h4 : parseAny (goTrim (cellString cell)) = some d) :
    resolveFilterDate rows = formatDate (nextDay d) := by
  cases cell with
  | nil => exact absurd rfl h3
  | str s =>
    unfold parseAny at h4
    cases hiso : parseISO (goTrim (cellString (Cell.str s))) with
    | some d0 =>
      rw [hiso] at h4
      simp only [Option.some.injEq] at h4
      subst h4
      simp only [resolveFilterDate, h1, h2, hiso]
    | none =>
      rw [hiso] at h4
      simp only at h4
      simp only [resolveFilterDate, h1, h2, hiso, h4]
  | num n =>
    unfold parseAny at h4
    cases hiso : parseISO (goTrim (cellString (Cell.num n))) with
    | some d0 =>
      rw [hiso] at h4
      simp only [Option.some.injEq] at h4
      subst h4
      simp only [resolveFilterDate, h1, h2, hiso]
    | none =>
      rw [hiso] at h4
      simp only at h4
      simp only [resolveFilterDate, h1, h2, hiso, h4]

/-! ## Lemmas: numeric value of formatted date cells -/

theorem cellFold_eq_digitFold {l : List Char} (h : ∀ c ∈ l, c.isDigit = true) :
    ∀ a : Nat,
      l.foldl (fun a c => if c.isDigit then a * 10 + (c.toNat - 48) else a) a =
        l.foldl (fun a c => a * 10 + (c.toNat - 48)) a := by
  induction l with
  | nil => intro a; rfl
  | cons c t ih =>
    intro a
    simp only [List.foldl_cons, if_pos (h c (by simp))]
    exact ih (fun x hx => h x (by simp [hx])) _

theorem daysIn_le_31 (m y : Nat) : daysIn m y ≤ 31 := by
  unfold daysIn
  split
  · split <;> omega
  · split <;> omega

theorem validDate_day_le {d : Date} (h : validDate d) : d.day ≤ 31 :=
  le_trans h.2.2.2 (daysIn_le_31 _ _)

/-- The numeric reading of a formatted date cell is
`year * 10000 + month * 100 + day`. -/
theorem cellNum_formatDate {d : Date} (hv : validDate d) (hy : d.year ≤ 9999) :
    cellNum (formatDate d) = d.year * 10000 + d.month * 100 + d.day := by
  obtain ⟨h1, h2, h3, h4⟩ := hv
  have hdash : ('-' : Char).isDigit = false := by decide
  have hdata : (formatDate d).data =
      padNum 4 d.year ++ '-' :: (padNum 2 d.month ++ '-' :: padNum 2 d.day) := rfl
  have hlen4 : (padNum 4 d.year).length = 4 := padNum_length (by omega) (by omega)
  have hlen2m : (padNum 2 d.month).length = 2 := padNum_length (by omega) (by omega)
  have hlen2d : (padNum 2 d.day).length = 2 :=
    padNum_length (by omega) (by have := le_trans h4 (daysIn_le_31 d.month d.year); omega)
  unfold cellNum
  rw [hdata]
  rw [List.foldl_append]
  rw [cellFold_eq_digitFold padNum_all_digit]
  rw [show (padNum 4 d.year).foldl (fun a c => a * 10 + (c.toNat - 48)) 0 =
      digitsToNat (padNum 4 d.year) from rfl, digitsToNat_padNum]
  rw [List.foldl_cons, if_neg (by simp [hdash])]
  rw [List.foldl_append]
  rw [cellFold_eq_digitFold padNum_all_digit]
  rw [digitFold_from, hlen2m]
  rw [show (padNum 2 d.month).foldl (fun a c => a * 10 + (c.toNat - 48)) 0 =
      digitsToNat (padNum 2 d.month) from rfl, digitsToNat_padNum]
  rw [List.foldl_cons, if_neg (by simp [hdash])]
  rw [cellFold_eq_digitFold padNum_all_digit]
  rw [digitFold_from, hlen2d]
  rw [show (padNum 2 d.day).foldl (fun a c => a * 10 + (c.toNat - 48)) 0 =
      digitsToNat (padNum 2 d.day) from rfl, digitsToNat_padNum]
  ring

/-! ## Lemmas: time order and date-cell monotonicity -/

theorem isLeap_iff (y : Nat) :
    isLeap y = true ↔ (y % 4 = 0 ∧ (y % 100 ≠ 0 ∨ y % 400 = 0)) := by
  simp [isLeap, Bool.and_eq_true, Bool.or_eq_true, beq_iff_eq, bne_iff_ne]

set_option maxHeartbeats 1000000 in
theorem daysInYearsBefore_succ (y : Nat) :
    daysInYearsBefore (y + 1) = daysInYearsBefore y + daysInYear y := by
  unfold daysInYearsBefore daysInYear
  by_cases h : isLeap y = true
  · rw [if_pos h]
    rw [isLeap_iff] at h
    omega
  · rw [if_neg h]
    rw [isLeap_iff] at h
    omega

theorem daysInYearsBefore_mono {y1 y2 : Nat} (h : y1 ≤ y2) :
    daysInYearsBefore y1 ≤ daysInYearsBefore y2 := by
  unfold daysInYearsBefore
  omega

theorem monthsBefore_succ {m : Nat} (h : 1 ≤ m) (y : Nat) :
    monthsBefore (m + 1) y = monthsBefore m y + daysIn m y := by
  cases m with
  | zero => omega
  | succ m => rfl

theorem monthsBefore_mono {y : Nat} : ∀ {m1 m2 : Nat}, m1 ≤ m2 →
    monthsBefore m1 y ≤ monthsBefore m2 y := by
  intro m1 m2 h
  induction m2 with
  | zero =>
    have : m1 = 0 := by omega
    subst this
    exact le_refl _
  | succ m ih =>
    by_cases he : m1 = m + 1
    · subst he; exact le_refl _
    · have step : monthsBefore m y ≤ monthsBefore (m + 1) y := by
        cases m with
        | zero => exact le_refl _
        | succ k =>
          rw [monthsBefore_succ (show 1 ≤ k + 1 by omega)]
          omega
      exact le_trans (ih (by omega)) step

theorem monthsBefore_13 (y : Nat) : monthsBefore 13 y = daysInYear y := by
  unfold daysInYear
  cases h : isLeap y with
  | true => simp [monthsBefore, daysIn, h]
  | false => simp [monthsBefore, daysIn, h]

/-- A valid date lies strictly inside its own year's day span. -/
theorem dayNumber_lt_year_end {d : Date} (hv : validDate d) :
    monthsBefore d.month d.year + (d.day - 1) < daysInYear d.year := by
  obtain ⟨h1, h2, h3, h4⟩ := hv
  have hstep : monthsBefore (d.month + 1) d.year =
      monthsBefore d.month d.year + daysIn d.month d.year :=
    monthsBefore_succ h1 d.year
  have hmono : monthsBefore (d.month + 1) d.year ≤ monthsBefore 13 d.year :=
    monthsBefore_mono (by omega)
  rw [monthsBefore_13] at hmono
  omega

/-- The day count is strictly monotone on valid dates. -/
theorem dayNumber_strict_mono {a b : Date} (hva : validDate a) (hvb : validDate b)
    (h : dateLT a b) : dayNumber a < dayNumber b := by
  obtain ⟨ha1, ha2, ha3, ha4⟩ := hva
  obtain ⟨hb1, hb2, hb3, hb4⟩ := hvb
  unfold dayNumber
  rcases h with hy | ⟨hy, hm | ⟨hm, hd⟩⟩
  · have hend : monthsBefore a.month a.year + (a.day - 1) < daysInYear a.year :=
      dayNumber_lt_year_end ⟨ha1, ha2, ha3, ha4⟩
    have hsucc : daysInYearsBefore (a.year + 1) =
        daysInYearsBefore a.year + daysInYear a.year := daysInYearsBefore_succ a.year
    have hmono : daysInYearsBefore (a.year + 1) ≤ daysInYearsBefore b.year :=
      daysInYearsBefore_mono (by omega)
    omega
  · rw [hy]
    have hstep : monthsBefore (a.month + 1) b.year =
        monthsBefore a.month b.year + daysIn a.month b.year := monthsBefore_succ ha1 b.year
    have hmono : monthsBefore (a.month + 1) b.year ≤ monthsBefore b.month b.year :=
      monthsBefore_mono (by omega)
    rw [hy] at ha4
    omega
  · rw [hy, hm]
    omega

theorem dateLT_of_not_dateLE {a b : Date} (h : ¬ dateLE a b) : dateLT b a := by
  unfold dateLE at h
  unfold dateLT
  omega

/-- For two times carrying the same zone offset, instant order implies
local-date order: the offsets cancel, and the day counts order the valid
calendar dates.  (With differing offsets this fails — see the C6
counterexample.) -/
theorem dateLE_of_instant_le {a b : Time} (hva : validDate a.date)
    (hvb : validDate b.date) (hsa : a.secOfDay < 86400) (hsb : b.secOfDay < 86400)
    (hoff : a.offsetMin = b.offsetMin) (h : timeBefore b a = false) :
    dateLE a.date b.date := by
  unfold timeBefore instantSec at h
  rw [decide_eq_false_iff_not, Int.not_lt, hoff] at h
  have hday : dayNumber a.date ≤ dayNumber b.date := by omega
  by_contra hc
  have hlt := dayNumber_strict_mono hvb hva (dateLT_of_not_dateLE hc)
  omega

theorem cellNum_formatDate_mono {a b : Date} (hva : validDate a) (hvb : validDate b)
    (hya : a.year ≤ 9999) (hyb : b.year ≤ 9999) (hle : dateLE a b) :
    cellNum (formatDate a) ≤ cellNum (formatDate b) := by
  rw [cellNum_formatDate hva hya, cellNum_formatDate hvb hyb]
  have hma : a.month ≤ 12 := hva.2.1
  have hmb : b.month ≤ 12 := hvb.2.1
  have hda : a.day ≤ 31 := validDate_day_le hva
  have hdb : b.day ≤ 31 := validDate_day_le hvb
  unfold dateLE at hle
  omega

/-! ## Lemmas: the leftmost match on a body containing `N saves` -/

theorem map_id_of_mem {f : Char → Char} :
    ∀ {l : List Char}, (∀ c ∈ l, f c = c) → l.map f = l := by
  intro l h
  induction l with
  | nil => rfl
  | cons c t ih =>
    simp only [List.map_cons, h c (by simp)]
    rw [ih (fun x hx => h x (by simp [hx]))]

theorem map_lowerChar_natRepr (n : Nat) : (natRepr n).map lowerChar = natRepr n :=
  map_id_of_mem (fun c hc => by
    obtain ⟨k, hk, rfl⟩ := natRepr_mem n c hc
    exact digitChar_lower hk)

/-- The leftmost match on `digits ++ " save..."` is the digit run. -/
theorem findMatchFrom_digits {ds rest : List Char} (hne : ds ≠ [])
    (hall : ∀ c ∈ ds, c.isDigit = true) :
    findMatchFrom (ds ++ ' ' :: 's' :: 'a' :: 'v' :: 'e' :: rest) = some ds := by
  cases ds with
  | nil => exact absurd rfl hne
  | cons d t =>
    have hm : matchHere ((d :: t) ++ ' ' :: 's' :: 'a' :: 'v' :: 'e' :: rest) =
        some (d :: t) := matchHere_digits hne hall
    rw [List.cons_append] at hm ⊢
    rw [findMatchFrom, hm]

/-! ## Claims -/

/-- C1, counterexample.  A batch whose second document has no recognizable
pattern: the claim predicts the second document is assigned the sentinel
`-1` and zero rows are appended, but the code extracts `(0, nil)` for it,
keeps the gate true, assigns it count `0`, and appends both rows. -/
theorem c1_counterexample :
    findMatchFrom (("no useful information").data.map lowerChar) = none ∧
    (processData []
      [⟨"r", ⟨⟨2025, 7, 20⟩, 0, 0⟩, "You have 5 saves", "1", 0⟩,
       ⟨"r", ⟨⟨2025, 7, 21⟩, 0, 0⟩, "no useful information", "2", 0⟩]).sheet =
      [[Cell.str "2025-07-20", Cell.num 5], [Cell.str "2025-07-21", Cell.num 0]] ∧
    (processData []
      [⟨"r", ⟨⟨2025, 7, 20⟩, 0, 0⟩, "You have 5 saves", "1", 0⟩,
       ⟨"r", ⟨⟨2025, 7, 21⟩, 0, 0⟩, "no useful information", "2", 0⟩]).gate = true ∧
    (processData []
      [⟨"r", ⟨⟨2025, 7, 20⟩, 0, 0⟩, "You have 5 saves", "1", 0⟩,
       ⟨"r", ⟨⟨2025, 7, 21⟩, 0, 0⟩, "no useful information", "2", 0⟩]).emails.map
      (fun e => e.zillowSaves) = [5, 0] := by
  refine ⟨by decide, by decide, by decide, by decide⟩

/-- C1 (amended): extraction never reports an error to the orchestrator (a
body with no pattern yields `(0, nil)`), so the all-or-nothing gate never
fires: for every batch the gate stays true, every document is assigned its
extracted count (0 when no pattern matches), and one row per document is
appended. -/
theorem c1_gate_never_fires (sheet : List (List Cell)) (emails : List EmailMessage) :
    (processData sheet emails).gate = true ∧
    (processData sheet emails).emails =
      emails.map (fun e => { e with zillowSaves := (extractZillowSavesCount e.content).1 }) ∧
    (processData sheet emails).sheet =
      sheet ++ (emails.map
        (fun e => { e with zillowSaves := (extractZillowSavesCount e.content).1 })).map
        rowOfEmail := by
  rw [processData_eq]
  exact ⟨rfl, rfl, appendToSheet_sheet sheet _⟩

/-- C2, counterexample.  A body with no recognizable pattern for which
extraction nonetheless returns the successful pair `(0, nil)` — an integer
result with a nil error — instead of reporting "not found". -/
theorem c2_counterexample :
    findMatchFrom (("Hello, world!").data.map lowerChar) = none ∧
    extractZillowSavesCount "Hello, world!" = (0, none) := by
  refine ⟨by decide, by decide⟩

/-- C2 (amended): for every body in which no pattern matches, or in which
the first match's capture fails integer parsing, `extractZillowSavesCount`
returns `(0, nil)`: a successful integer 0, indistinguishable from a genuine
zero count, never an error. -/
theorem c2_extraction_gap_yields_zero_nil (content : String)
    (h : findMatchFrom (content.data.map lowerChar) = none ∨
      ∃ cap, findMatchFrom (content.data.map lowerChar) = some cap ∧ goAtoi cap = none) :
    extractZillowSavesCount content = (0, none) :=
  extract_gap_returns_zero content h

/-- C2, witness: the amended theorem applied to the concrete body
`"Hello, world!"`. -/
theorem c2_witness : extractZillowSavesCount "Hello, world!" = (0, none) :=
  c2_extraction_gap_yields_zero_nil "Hello, world!" (Or.inl (by decide))

/-- C3: whenever the last row's first cell (trimmed) parses under the
primary format or one of the alternative formats — tried in the code's
order — the watermark is that date plus one day, formatted `YYYY-MM-DD`. -/
theorem c3_watermark_is_last_date_plus_one {rows : List (List Cell)}
    {row : List Cell} {cell : Cell} {d : Date} (h1 : rows.getLast? = some row)
    (h2 : row.head? = some cell) (h3 : cell ≠ Cell.nil)
    (h4 : parseAny (goTrim (cellString cell)) = some d) :
    resolveFilterDate rows = formatDate (nextDay d) :=
  resolveFilterDate_parsed h1 h2 h3 h4

/-- C3, witness: the claim's own scenario — last row `["7/20/2025", 3]`
resolves via the alternate-format path to watermark `2025-07-21`. -/
theorem c3_witness :
    resolveFilterDate [[Cell.str "7/20/2025", Cell.num 3]] = "2025-07-21" := by
  have h := c3_watermark_is_last_date_plus_one
    (show ([[Cell.str "7/20/2025", Cell.num 3]] : List (List Cell)).getLast? =
      some [Cell.str "7/20/2025", Cell.num 3] from rfl)
    (show [Cell.str "7/20/2025", Cell.num 3].head? = some (Cell.str "7/20/2025") from rfl)
    (by decide)
    (show parseAny (goTrim (cellString (Cell.str "7/20/2025"))) =
      some ⟨2025, 7, 20⟩ by decide)
  rw [h]
  rfl

/-- C4: if there are no rows, or the last row has no first cell (absent or
`nil`), or the trimmed first cell parses under no supported format, the
watermark is the fixed fallback date `2025-05-21`. -/
theorem c4_watermark_fallback (rows : List (List Cell))
    (h : rows.getLast? = none ∨
      (∃ row, rows.getLast? = some row ∧ row.head? = none) ∨
      (∃ row, rows.getLast? = some row ∧ row.head? = some Cell.nil) ∨
      (∃ row cell, rows.getLast? = some row ∧ row.head? = some cell ∧
        parseAny (goTrim (cellString cell)) = none)) :
    resolveFilterDate rows = "2025-05-21" := by
  rcases h with h1 | ⟨row, h1, h2⟩ | ⟨row, h1, h2⟩ | ⟨row, cell, h1, h2, h4⟩
  · simp only [resolveFilterDate, h1]
    rfl
  · simp only [resolveFilterDate, h1, h2]
    rfl
  · simp only [resolveFilterDate, h1, h2]
    rfl
  · cases cell with
    | nil =>
      simp only [resolveFilterDate, h1, h2]
      rfl
    | str s =>
      unfold parseAny at h4
      cases hiso : parseISO (goTrim (cellString (Cell.str s))) with
      | some d0 => rw [hiso] at h4; exact absurd h4 (by simp)
      | none =>
        rw [hiso] at h4
        simp only at h4
        simp only [resolveFilterDate, h1, h2, hiso, h4]
        rfl
    | num n =>
      unfold parseAny at h4
      cases hiso : parseISO (goTrim (cellString (Cell.num n))) with
      | some d0 => rw [hiso] at h4; exact absurd h4 (by simp)
      | none =>
        rw [hiso] at h4
        simp only at h4
        simp only [resolveFilterDate, h1, h2, hiso, h4]
        rfl

/-- C4, witness: a last row whose date cell parses under no format falls
back to `2025-05-21`. -/
theorem c4_witness : resolveFilterDate [[Cell.str "three"]] = "2025-05-21" :=
  c4_watermark_fallback _ (Or.inr (Or.inr (Or.inr
    ⟨[Cell.str "three"], Cell.str "three", rfl, rfl, by decide⟩)))

/-- C5, counterexample.  The claim as stated has no bound on `N`: for the
body `"99999999999999999999 saves"` (which literally is `<N> saves` with
`N = 10^20 - 1` and no earlier pattern occurrence) `strconv.Atoi` overflows
the 64-bit `int`, the pattern loop falls through, and extraction returns
`0`, not `N`. -/
theorem c5_counterexample :
    extractZillowSavesCount
      ⟨natRepr 99999999999999999999 ++ ' ' :: 's' :: 'a' :: 'v' :: 'e' :: 's' :: []⟩ =
      (0, none) ∧ (99999999999999999999 : Nat) ≠ 0 := by
  refine ⟨by decide, by decide⟩

/-- C5 (amended): for every body `p ++ <N> saves ++ s` whose prefix `p`
contains no earlier match of the pattern, and with `N` within the 64-bit
`int` range `N ≤ 2^63 - 1` (the bound `strconv.Atoi` enforces), extraction
returns exactly `N` with a nil error. -/
theorem c5_first_saves_extracted (p s : List Char) (N : Nat) (hN : N ≤ 2 ^ 63 - 1)
    (hno : ∀ i < p.length,
      matchHere ((p.map lowerChar ++ natRepr N ++
        ' ' :: 's' :: 'a' :: 'v' :: 'e' :: 's' :: s.map lowerChar).drop i) = none) :
    extractZillowSavesCount
      ⟨p ++ natRepr N ++ ' ' :: 's' :: 'a' :: 'v' :: 'e' :: 's' :: s⟩ =
      (Int.ofNat N, none) := by
  have hmid : (' ' :: 's' :: 'a' :: 'v' :: 'e' :: 's' :: s).map lowerChar =
      ' ' :: 's' :: 'a' :: 'v' :: 'e' :: 's' :: s.map lowerChar := by
    simp only [List.map_cons]
    rfl
  have hmap : ((p ++ natRepr N ++ ' ' :: 's' :: 'a' :: 'v' :: 'e' :: 's' :: s).map
      lowerChar) =
      p.map lowerChar ++ natRepr N ++
        ' ' :: 's' :: 'a' :: 'v' :: 'e' :: 's' :: s.map lowerChar := by
    rw [List.map_append, List.map_append, map_lowerChar_natRepr, hmid]
  have hfind : findMatchFrom ((p ++ natRepr N ++
      ' ' :: 's' :: 'a' :: 'v' :: 'e' :: 's' :: s).map lowerChar) =
      some (natRepr N) := by
    rw [hmap]
    rw [show p.map lowerChar ++ natRepr N ++
        ' ' :: 's' :: 'a' :: 'v' :: 'e' :: 's' :: s.map lowerChar =
      p.map lowerChar ++ (natRepr N ++
        ' ' :: 's' :: 'a' :: 'v' :: 'e' :: 's' :: s.map lowerChar) from by
        rw [List.append_assoc]]
    rw [findMatchFrom_append_none _ _ (by
      intro i hi
      rw [← List.append_assoc]
      exact hno i (by simpa using hi))]
    exact findMatchFrom_digits (natRepr_ne_nil N) (natRepr_all_digit N)
  have hatoi : goAtoi (natRepr N) = some (Int.ofNat N) := by
    have := goAtoi_digits (natRepr_ne_nil N) (natRepr_all_digit N)
      (by rw [digitsToNat_natRepr]; exact hN)
    rwa [digitsToNat_natRepr] at this
  show extractZillowSavesCount ⟨p ++ natRepr N ++
      ' ' :: 's' :: 'a' :: 'v' :: 'e' :: 's' :: s⟩ = (Int.ofNat N, none)
  simp only [extractZillowSavesCount, hfind, hatoi]

/-- C5, witness: the amended theorem applied to the body `"my 12 saves!"`
(prefix `"my "`, `N = 12`, suffix `"!"`). -/
theorem c5_witness :
    extractZillowSavesCount
      ⟨"my ".data ++ natRepr 12 ++ ' ' :: 's' :: 'a' :: 'v' :: 'e' :: 's' :: "!".data⟩ =
      (Int.ofNat 12, none) :=
  c5_first_saves_extracted ("my ".data) ("!".data) 12 (by decide) (by decide)

/-- C6, counterexample.  The program sorts by absolute instant
(`Time.Before`) but the appended cells render each email's local calendar
date, so a mixed-offset batch violates the claim: the email dated locally
2025-07-22 00:10 at offset −07:00 (instant 07:10 UTC) precedes the email
dated locally 2025-07-21 23:30 at offset −08:00 (instant 07:30 UTC).  The
batch below is sorted ascending by `published_at` — it satisfies exactly
the pairwise sortedness `sort.Slice` establishes with the code's `Before`
comparator — yet the appended date cells are strictly decreasing. -/
theorem c6_counterexample :
    List.Pairwise (fun a b => timeBefore b.date a.date = false)
      [⟨"r", ⟨⟨2025, 7, 22⟩, 600, -420⟩, "5 saves", "2", 5⟩,
       (⟨"r", ⟨⟨2025, 7, 21⟩, 84600, -480⟩, "3 saves", "1", 3⟩ : EmailMessage)] ∧
    (appendToSheet []
      [⟨"r", ⟨⟨2025, 7, 22⟩, 600, -420⟩, "5 saves", "2", 5⟩,
       ⟨"r", ⟨⟨2025, 7, 21⟩, 84600, -480⟩, "3 saves", "1", 3⟩]).sheet =
      [[Cell.str "2025-07-22", Cell.num 5], [Cell.str "2025-07-21", Cell.num 3]] ∧
    ¬ List.Chain' (fun x y => cellNum x ≤ cellNum y)
      ([⟨"r", ⟨⟨2025, 7, 22⟩, 600, -420⟩, "5 saves", "2", 5⟩,
        (⟨"r", ⟨⟨2025, 7, 21⟩, 84600, -480⟩, "3 saves", "1", 3⟩ : EmailMessage)].map
        (fun e => formatDate e.date.date)) := by
  refine ⟨by decide, by decide, ?_⟩
  intro hch
  simp only [List.map_cons, List.map_nil] at hch
  exact absurd (List.chain'_cons.1 hch).1 (by decide)

/-- C6 (amended): for a batch whose documents all carry the same zone
offset, appending after sorting ascending by `published_at` (the pairwise
guarantee `sort.Slice` gives with the code's `Before` comparator) produces
exactly one row per document, in that order, whose `YYYY-MM-DD` date cells
are non-decreasing (stated via the numeric reading `cellNum`, which on
these fixed-width cells coincides with lexicographic and chronological
order).  Valid calendar dates and `secOfDay < 86400` are the invariants
Go's `time.Time` maintains for every real timestamp; the uniform-offset
hypothesis is what the counterexample shows cannot be dropped. -/
theorem c6_sorted_append_nondecreasing (sheet : List (List Cell))
    (emails : List EmailMessage)
    (hvalid : ∀ e ∈ emails, validDate e.date.date ∧ e.date.date.year ≤ 9999 ∧
      e.date.secOfDay < 86400)
    (hoff : ∀ a ∈ emails, ∀ b ∈ emails, a.date.offsetMin = b.date.offsetMin)
    (hsorted : emails.Pairwise (fun a b => timeBefore b.date a.date = false)) :
    (appendToSheet sheet emails).sheet = sheet ++ emails.map rowOfEmail ∧
    List.Chain' (fun x y => cellNum x ≤ cellNum y)
      (emails.map (fun e => formatDate e.date.date)) := by
  refine ⟨appendToSheet_sheet sheet emails, ?_⟩
  have hp : emails.Pairwise (fun a b =>
      cellNum (formatDate a.date.date) ≤ cellNum (formatDate b.date.date)) := by
    refine hsorted.imp_of_mem ?_
    intro a b ha hb hr
    have hdle : dateLE a.date.date b.date.date :=
      dateLE_of_instant_le (hvalid a ha).1 (hvalid b hb).1
        (hvalid a ha).2.2 (hvalid b hb).2.2 (hoff a ha b hb) hr
    exact cellNum_formatDate_mono (hvalid a ha).1 (hvalid b hb).1
      (hvalid a ha).2.1 (hvalid b hb).2.1 hdle
  have hmapped : List.Pairwise (fun x y => cellNum x ≤ cellNum y)
      (emails.map (fun e => formatDate e.date.date)) := List.pairwise_map.2 hp
  exact hmapped.chain'

/-- C6, witness: two sorted emails dated 2025-07-20 and 2025-07-21, both
at offset −07:00. -/
theorem c6_witness :
    (appendToSheet []
      [⟨"r", ⟨⟨2025, 7, 20⟩, 3600, -420⟩, "3 saves", "1", 3⟩,
       ⟨"r", ⟨⟨2025, 7, 21⟩, 60, -420⟩, "5 saves", "2", 5⟩]).sheet =
      [] ++ [⟨"r", ⟨⟨2025, 7, 20⟩, 3600, -420⟩, "3 saves", "1", 3⟩,
        (⟨"r", ⟨⟨2025, 7, 21⟩, 60, -420⟩, "5 saves", "2", 5⟩ : EmailMessage)].map
        rowOfEmail ∧
    List.Chain' (fun x y => cellNum x ≤ cellNum y)
      ([⟨"r", ⟨⟨2025, 7, 20⟩, 3600, -420⟩, "3 saves", "1", 3⟩,
        (⟨"r", ⟨⟨2025, 7, 21⟩, 60, -420⟩, "5 saves", "2", 5⟩ : EmailMessage)].map
        (fun e => formatDate e.date.date)) :=
  c6_sorted_append_nondecreasing []
    [⟨"r", ⟨⟨2025, 7, 20⟩, 3600, -420⟩, "3 saves", "1", 3⟩,
     ⟨"r", ⟨⟨2025, 7, 21⟩, 60, -420⟩, "5 saves", "2", 5⟩]
    (by decide) (by decide) (by decide)

/-- C8: a row appended by `appendToSheet` (date formatted `YYYY-MM-DD`)
and read back as the last row by the next run resolves the watermark to the
appended date plus one day. -/
theorem c8_round_trip (sheet : List (List Cell)) (e : EmailMessage)
    (hv : validDate e.date.date) (hy : e.date.date.year ≤ 9999) :
    resolveFilterDate ((appendToSheet sheet [e]).sheet) =
      formatDate (nextDay e.date.date) := by
  have hsheet : (appendToSheet sheet [e]).sheet = sheet ++ [rowOfEmail e] := by
    rw [appendToSheet_sheet]
    rfl
  rw [hsheet]
  refine resolveFilterDate_parsed (List.getLast?_concat sheet)
    (show (rowOfEmail e).head? = some (Cell.str (formatDate e.date.date)) from rfl)
    (fun h => Cell.noConfusion h) ?_
  show parseAny (goTrim (formatDate e.date.date)) = some e.date.date
  rw [goTrim_formatDate]
  unfold parseAny
  rw [parseISO_formatDate hv hy]

/-- C8, witness: the claim's own scenario — the appended row
`["2025-07-20", 5]` resolves the next run's watermark to `2025-07-21`. -/
theorem c8_witness :
    resolveFilterDate
      ((appendToSheet [] [⟨"r", ⟨⟨2025, 7, 20⟩, 0, 0⟩, "5 saves", "9", 5⟩]).sheet) =
      "2025-07-21" := by
  have h := c8_round_trip [] ⟨"r", ⟨⟨2025, 7, 20⟩, 0, 0⟩, "5 saves", "9", 5⟩
    (by decide) (by decide)
  rw [h]
  rfl

/-- C9: `extractZillowSavesCount` is total — every call returns a
non-negative count with a nil error — so the error branch of
`processData` (gate flip, sentinel `-1`) is unreachable: the gate of the
extraction loop is true for every batch. -/
theorem c9_extraction_total_error_branch_dead (content : String)
    (emails : List EmailMessage) :
    (extractZillowSavesCount content).2 = none ∧
    0 ≤ (extractZillowSavesCount content).1 ∧
    (processEmails emails).2 = true := by
  refine ⟨extract_error_nil content, extract_nonneg content, ?_⟩
  rw [processEmails_eq]

/-- C10: for an empty email batch `appendToSheet` issues no append call
against the sheet service, returns a nil error, and leaves the sheet
unchanged. -/
theorem c10_empty_batch_no_append_call (sheet : List (List Cell)) :
    appendToSheet sheet [] = ⟨sheet, 0, none⟩ := rfl

end Zillow
